import Mathlib

/-!
Shallow embedding of the raid-detection core of `src/main.rs`
(bot-destroyer-9000): the per-guild sliding window of recent joins, the
threshold-triggered action pass, and the removal reconciliation.

Modelling choices:
* `Instant` is a `Nat` (seconds); Rust's `now - v.instant` on `Instant`s is
  truncated subtraction on `Nat`, and `Duration::from_secs(30)` is `30`.
* `Member` carries its `user` identity (a `Nat`); `v.member.user != _kicked`
  compares these identities.
* The `HashMap<GuildId, Vec<UserJoinMoment>>` is a `GuildId → Option (List
  UserJoinMoment)`; `entry(..).or_insert(Vec::new())` reads the entry (empty
  when absent) and the handler's in-place mutation writes it back.
* The outbound `kick_with_reason` / `ban_with_reason` calls are modelled by
  the list of issued `ActionCall`s plus an `outcome` oracle giving each
  call's success; the source discards the result (`let _ = match ... `).
* The `info!` / `warn!` lines the handlers emit are modelled as a list of
  structured `LogEvent`s with a severity `Level`.
-/

namespace BotDestroyer

abbrev GuildId := Nat
abbrev UserId := Nat

/-- The slice of serenity's `Member` the detector uses: the identity of its
`user` field (compared in `guild_member_removal`); the kick/ban handle is the
identity itself. -/
structure Member where
  user : UserId
deriving DecidableEq, Repr

/-- `enum Action { Kick, Ban }` from `src/main.rs`. -/
inductive Action where
  | Kick : Action
  | Ban : Action
deriving DecidableEq, Repr

/-- `const DEFAULT_SEARCH_DUR: Duration = Duration::from_secs(30)`. -/
def DEFAULT_SEARCH_DUR : Nat := 30

/-- `const MIN_USERS_JOIN: usize = 8`. -/
def MIN_USERS_JOIN : Nat := 8

/-- `const DEFAULT_ACTION: Action = Action::Kick`. -/
def DEFAULT_ACTION : Action := Action.Kick

/-- The reason string passed to `kick_with_reason` / `ban_with_reason`. -/
def ACTION_REASON : String := "Suspected bot; performing raid defense"

/-- `struct UserJoinMoment { instant, member, action_taken }`. -/
structure UserJoinMoment where
  instant : Nat
  member : Member
  action_taken : Bool
deriving DecidableEq, Repr

/-- One outbound moderation call to the gateway adapter:
`kick_with_reason(http, reason)` or `ban_with_reason(http, 7, reason)`. -/
inductive ActionCall where
  | kick (user : UserId) (reason : String) : ActionCall
  | ban (user : UserId) (deleteMessageDays : Nat) (reason : String) : ActionCall
deriving DecidableEq, Repr

/-- The member a call targets. -/
def ActionCall.user : ActionCall → UserId
  | ActionCall.kick u _ => u
  | ActionCall.ban u _ _ => u

/-- Severity of a log line (`info!` / `warn!` / `error!`). -/
inductive Level where
  | Info : Level
  | Warn : Level
  | Err : Level
deriving DecidableEq, Repr

/-- The log lines the event handlers emit, structured:
* `joinCount n` — `info!("{} users have joined within the search duration", n)`
* `stoppingRaid g` — `info!("Stopping a raid in server {:?}", g)`
* `actionDone a u` — `info!("{:?} {}", DEFAULT_ACTION, join.member)`
* `sendMessageFailed` — `warn!("Error sending message: {:?}", why)` from the
  unrelated `message` handler, the only `warn!` in the source. -/
inductive LogEvent where
  | joinCount (n : Nat) : LogEvent
  | stoppingRaid (g : GuildId) : LogEvent
  | actionDone (a : Action) (user : UserId) : LogEvent
  | sendMessageFailed : LogEvent
deriving DecidableEq, Repr

/-- The severity each log line is emitted at. -/
def LogEvent.level : LogEvent → Level
  | LogEvent.sendMessageFailed => Level.Warn
  | _ => Level.Info

/-- The process-wide `HashMap<GuildId, Vec<UserJoinMoment>>` behind the
`GuildJoinsWatcher` type-map key. `none` = no entry for the guild yet. -/
def GuildsMap : Type := GuildId → Option (List UserJoinMoment)

/-- `guilds_map.entry(g).or_insert(Vec::new())`, read side: the guild's
vector, empty when the entry is absent. -/
def mapGet (m : GuildsMap) (g : GuildId) : List UserJoinMoment :=
  (m g).getD []

/-- Writing a guild's vector back into the map (the entry now exists). -/
def mapSet (m : GuildsMap) (g : GuildId) (v : List UserJoinMoment) : GuildsMap :=
  fun g2 => if g2 = g then some v else m g2

/-- Sets `action_taken` on a record (the loop's `join.action_taken = true`). -/
def markTrue (j : UserJoinMoment) : UserJoinMoment :=
  { j with action_taken := true }

/-- The call `match DEFAULT_ACTION { Kick => kick_with_reason(..), Ban =>
ban_with_reason(.., 7, ..) }` issues for a member. -/
def mkActionCall (a : Action) (m : Member) : ActionCall :=
  match a with
  | Action.Kick => ActionCall.kick m.user ACTION_REASON
  | Action.Ban => ActionCall.ban m.user 7 ACTION_REASON

/-- The `for join in joins.iter_mut()` loop of `guild_member_addition`: for
each record with `!join.action_taken`, issue the configured action (the
call's result is discarded, as in `let _ = match ...`), set
`join.action_taken = true`. Returns the mutated vector and the calls issued,
in iteration order. `outcome` is the gateway's success oracle. -/
def actionPass (outcome : ActionCall → Bool) :
    List UserJoinMoment → List UserJoinMoment × List ActionCall
  | [] => ([], [])
  | j :: rest =>
    if j.action_taken then
      let r := actionPass outcome rest
      (j :: r.1, r.2)
    else
      let call := mkActionCall DEFAULT_ACTION j.member
      let _ok := outcome call
      let r := actionPass outcome rest
      (markTrue j :: r.1, call :: r.2)

/-- The guild's vector right after `joins.push(UserJoinMoment{..})` and
`joins.retain(|v| now - v.instant <= DEFAULT_SEARCH_DUR)`. -/
def windowAfterInsert (guilds : GuildsMap) (gid : GuildId) (new_member : Member)
    (now : Nat) : List UserJoinMoment :=
  (mapGet guilds gid ++ [({ instant := now, member := new_member, action_taken := false } : UserJoinMoment)]).filter
    (fun v => now - v.instant ≤ DEFAULT_SEARCH_DUR)

/-- `guild_member_addition` from `src/main.rs`: push the new join record,
evict records outside the search duration, log the live count, and when the
count reaches `MIN_USERS_JOIN` run the action pass. Returns the updated map,
the outbound calls issued, and the log lines emitted. -/
def guild_member_addition (guilds : GuildsMap) (gid : GuildId)
    (new_member : Member) (now : Nat) (outcome : ActionCall → Bool) :
    GuildsMap × List ActionCall × List LogEvent :=
  let joins2 := windowAfterInsert guilds gid new_member now
  if MIN_USERS_JOIN ≤ joins2.length then
    let r := actionPass outcome joins2
    (mapSet guilds gid r.1, r.2,
      LogEvent.joinCount joins2.length :: LogEvent.stoppingRaid gid ::
        r.2.map (fun c => LogEvent.actionDone DEFAULT_ACTION c.user))
  else
    (mapSet guilds gid joins2, [], [LogEvent.joinCount joins2.length])

/-- `guild_member_removal` from `src/main.rs`:
`joins.retain(|v| v.action_taken || v.member.user != _kicked)`. -/
def guild_member_removal (guilds : GuildsMap) (gid : GuildId)
    (kicked : UserId) : GuildsMap :=
  let joins := mapGet guilds gid
  mapSet guilds gid (joins.filter (fun v => v.action_taken || (v.member.user != kicked)))

/-! ### Concrete fixtures used by witnesses -/

/-- The map as initialized in `main`: `HashMap::new()`. -/
def emptyGuilds : GuildsMap := fun _ => none

/-- Seven distinct pending joins at time 0. -/
def sevenJoins : List UserJoinMoment :=
  (List.range 7).map (fun i => ⟨0, ⟨i⟩, false⟩)

/-- A map whose guild 1 already holds seven pending joins. -/
def guilds7 : GuildsMap := fun g => if g = 1 then some sevenJoins else none

/-! ### Helper lemmas -/

theorem markTrue_eq_self (j : UserJoinMoment) (h : j.action_taken = true) :
    markTrue j = j := by
  cases j with
  | mk i m a => cases a with
    | false => simp at h
    | true => rfl

theorem markTrue_instant (j : UserJoinMoment) : (markTrue j).instant = j.instant := rfl

theorem markTrue_member (j : UserJoinMoment) : (markTrue j).member = j.member := rfl

theorem mapGet_mapSet_same (m : GuildsMap) (g : GuildId) (v : List UserJoinMoment) :
    mapGet (mapSet m g v) g = v := by
  simp [mapGet, mapSet]

theorem mapSet_apply_ne (m : GuildsMap) (g : GuildId) (v : List UserJoinMoment)
    (g' : GuildId) (h : g' ≠ g) : mapSet m g v g' = m g' := by
  simp [mapSet, h]

theorem actionPass_fst (o : ActionCall → Bool) (js : List UserJoinMoment) :
    (actionPass o js).1 = js.map markTrue := by
  induction js with
  | nil => rfl
  | cons j rest ih =>
    by_cases hj : j.action_taken
    · simp [actionPass, hj, ih, markTrue_eq_self j hj]
    · simp [actionPass, hj, ih]

theorem actionPass_snd (o : ActionCall → Bool) (js : List UserJoinMoment) :
    (actionPass o js).2 =
      (js.filter (fun j => !j.action_taken)).map
        (fun j => mkActionCall DEFAULT_ACTION j.member) := by
  induction js with
  | nil => rfl
  | cons j rest ih =>
    by_cases hj : j.action_taken
    · simp [actionPass, hj, ih]
    · simp [actionPass, hj, ih]

theorem actionPass_outcome_irrel (o1 o2 : ActionCall → Bool)
    (js : List UserJoinMoment) : actionPass o1 js = actionPass o2 js := by
  apply Prod.ext
  · rw [actionPass_fst, actionPass_fst]
  · rw [actionPass_snd, actionPass_snd]

theorem addition_fst (guilds : GuildsMap) (gid : GuildId) (mem : Member)
    (now : Nat) (o : ActionCall → Bool) :
    (guild_member_addition guilds gid mem now o).1 =
      mapSet guilds gid
        (if MIN_USERS_JOIN ≤ (windowAfterInsert guilds gid mem now).length
         then (windowAfterInsert guilds gid mem now).map markTrue
         else windowAfterInsert guilds gid mem now) := by
  unfold guild_member_addition
  split
  · simp [actionPass_fst, *]
  · simp [*]

theorem addition_calls (guilds : GuildsMap) (gid : GuildId) (mem : Member)
    (now : Nat) (o : ActionCall → Bool) :
    (guild_member_addition guilds gid mem now o).2.1 =
      if MIN_USERS_JOIN ≤ (windowAfterInsert guilds gid mem now).length
      then ((windowAfterInsert guilds gid mem now).filter (fun j => !j.action_taken)).map
             (fun j => mkActionCall DEFAULT_ACTION j.member)
      else [] := by
  unfold guild_member_addition
  split
  · simp [actionPass_snd, *]
  · simp [*]

/-! ### Claim theorems -/

/-- C1: a join whose post-eviction window holds fewer than `MIN_USERS_JOIN`
records issues no punitive action; a join whose post-eviction window reaches
`MIN_USERS_JOIN` issues exactly one action — the default `Kick` with the
configured reason string — for every record with `action_taken = false`, in
insertion order, earlier same-window joiners included. -/
theorem addition_threshold (guilds : GuildsMap) (gid : GuildId) (mem : Member)
    (now : Nat) (o : ActionCall → Bool) :
    ((windowAfterInsert guilds gid mem now).length < MIN_USERS_JOIN →
      (guild_member_addition guilds gid mem now o).2.1 = []) ∧
    (MIN_USERS_JOIN ≤ (windowAfterInsert guilds gid mem now).length →
      (guild_member_addition guilds gid mem now o).2.1 =
        ((windowAfterInsert guilds gid mem now).filter (fun j => !j.action_taken)).map
          (fun j => ActionCall.kick j.member.user ACTION_REASON)) := by
  constructor
  · intro h
    rw [addition_calls, if_neg (Nat.not_le.mpr h)]
  · intro h
    rw [addition_calls, if_pos h]
    rfl

/-- C1 witness: in a window already holding seven pending joins, the eighth
join issues one kick per pending record. -/
theorem addition_threshold_witness :
    MIN_USERS_JOIN ≤ (windowAfterInsert guilds7 1 ⟨100⟩ 0).length ∧
    (guild_member_addition guilds7 1 ⟨100⟩ 0 (fun _ => true)).2.1 =
      ((windowAfterInsert guilds7 1 ⟨100⟩ 0).filter (fun j => !j.action_taken)).map
        (fun j => ActionCall.kick j.member.user ACTION_REASON) :=
  ⟨by decide, (addition_threshold guilds7 1 ⟨100⟩ 0 (fun _ => true)).2 (by decide)⟩

/-- C2: at the end of every `guild_member_addition` call, every record kept
in that guild's window is within the search duration of `now`. -/
theorem window_eviction (guilds : GuildsMap) (gid : GuildId) (mem : Member)
    (now : Nat) (o : ActionCall → Bool) :
    ∀ r ∈ mapGet (guild_member_addition guilds gid mem now o).1 gid,
      now - r.instant ≤ DEFAULT_SEARCH_DUR := by
  intro r hr
  rw [addition_fst, mapGet_mapSet_same] at hr
  split at hr
  · obtain ⟨s, hs, rfl⟩ := List.mem_map.mp hr
    have hp := (List.mem_filter.mp hs).2
    rw [markTrue_instant]
    exact of_decide_eq_true hp
  · have hp := (List.mem_filter.mp hr).2
    exact of_decide_eq_true hp

/-- C2 witness: the record created by a join into an empty window is in the
resulting window and satisfies the window bound. -/
theorem window_eviction_witness :
    ({ instant := 0, member := ⟨5⟩, action_taken := false } : UserJoinMoment) ∈
        mapGet (guild_member_addition emptyGuilds 1 ⟨5⟩ 0 (fun _ => true)).1 1 ∧
    (0 : Nat) - (0 : Nat) ≤ DEFAULT_SEARCH_DUR :=
  ⟨by decide,
   window_eviction emptyGuilds 1 ⟨5⟩ 0 (fun _ => true)
     { instant := 0, member := ⟨5⟩, action_taken := false } (by decide)⟩

/-- C3: `guild_member_removal` keeps exactly the records that are already
actioned or belong to a different user — so it removes exactly the pending
records of the removed user, keeps every actioned record of that user, and
time-based eviction (which ignores `action_taken`) is what removes stale
records. -/
theorem removal_reconciliation (guilds : GuildsMap) (gid : GuildId) (kicked : UserId) :
    mapGet (guild_member_removal guilds gid kicked) gid =
      (mapGet guilds gid).filter (fun v => v.action_taken || (v.member.user != kicked)) ∧
    (∀ r, r ∈ mapGet (guild_member_removal guilds gid kicked) gid ↔
      (r ∈ mapGet guilds gid ∧ (r.action_taken = true ∨ r.member.user ≠ kicked))) ∧
    (∀ (mem : Member) (now : Nat) (r : UserJoinMoment),
      DEFAULT_SEARCH_DUR < now - r.instant →
        r ∉ windowAfterInsert guilds gid mem now) := by
  refine ⟨?_, ?_, ?_⟩
  · unfold guild_member_removal
    exact mapGet_mapSet_same _ _ _
  · intro r
    unfold guild_member_removal
    rw [mapGet_mapSet_same, List.mem_filter]
    constructor
    · rintro ⟨hm, hp⟩
      refine ⟨hm, ?_⟩
      rcases Bool.or_eq_true_iff.mp hp with h | h
      · exact Or.inl h
      · exact Or.inr (bne_iff_ne.mp h)
    · rintro ⟨hm, h | h⟩
      · exact ⟨hm, Bool.or_eq_true_iff.mpr (Or.inl h)⟩
      · exact ⟨hm, Bool.or_eq_true_iff.mpr (Or.inr (bne_iff_ne.mpr h))⟩
  · intro mem now r hstale hr
    have hp := of_decide_eq_true (List.mem_filter.mp hr).2
    exact absurd hp (Nat.not_le.mpr hstale)

/-- C3 witness: removing user 3 from the seven-pending-join window keeps a
pending record of user 0, drops the pending record of user 3, and a record
31 seconds old is evicted. -/
theorem removal_reconciliation_witness :
    (({ instant := 0, member := ⟨0⟩, action_taken := false } : UserJoinMoment) ∈
        mapGet (guild_member_removal guilds7 1 3) 1) ∧
    (({ instant := 0, member := ⟨3⟩, action_taken := false } : UserJoinMoment) ∉
        mapGet (guild_member_removal guilds7 1 3) 1) ∧
    (({ instant := 0, member := ⟨0⟩, action_taken := true } : UserJoinMoment) ∉
        windowAfterInsert guilds7 1 ⟨9⟩ 99) :=
  ⟨by decide, by decide,
   (removal_reconciliation guilds7 1 3).2.2 ⟨9⟩ 99
     { instant := 0, member := ⟨0⟩, action_taken := true } (by decide)⟩

/-- C4: `action_taken` is monotonic. Every record in the window after a
join event descends from a pre-existing record (or the newly created one,
which starts with `action_taken = false`) with the same instant and member
and with `action_taken` never reset from `true` to `false`; a removal event
keeps records unchanged. -/
theorem action_taken_monotonic (guilds : GuildsMap) (gid : GuildId) (mem : Member)
    (now : Nat) (o : ActionCall → Bool) (kicked : UserId) :
    (∀ r' ∈ mapGet (guild_member_addition guilds gid mem now o).1 gid,
      ∃ r, (r ∈ mapGet guilds gid ∨
            r = ({ instant := now, member := mem, action_taken := false } : UserJoinMoment)) ∧
        r.instant = r'.instant ∧ r.member = r'.member ∧
        (r.action_taken = true → r'.action_taken = true)) ∧
    (∀ r' ∈ mapGet (guild_member_removal guilds gid kicked) gid,
      r' ∈ mapGet guilds gid) := by
  constructor
  · intro r' hr'
    rw [addition_fst, mapGet_mapSet_same] at hr'
    split at hr'
    · obtain ⟨s, hs, rfl⟩ := List.mem_map.mp hr'
      have hsa := (List.mem_filter.mp hs).1
      rcases List.mem_append.mp hsa with h | h
      · exact ⟨s, Or.inl h, rfl, rfl, fun _ => rfl⟩
      · exact ⟨s, Or.inr (List.mem_singleton.mp h), rfl, rfl, fun _ => rfl⟩
    · have hsa := (List.mem_filter.mp hr').1
      rcases List.mem_append.mp hsa with h | h
      · exact ⟨r', Or.inl h, rfl, rfl, fun h' => h'⟩
      · exact ⟨r', Or.inr (List.mem_singleton.mp h), rfl, rfl, fun h' => h'⟩
  · intro r' hr'
    unfold guild_member_removal at hr'
    rw [mapGet_mapSet_same] at hr'
    exact (List.mem_filter.mp hr').1

/-- C4 witness: a record kept through a removal event was in the window
before it, unchanged. -/
theorem action_taken_monotonic_witness :
    (({ instant := 0, member := ⟨0⟩, action_taken := false } : UserJoinMoment) ∈
        mapGet (guild_member_removal guilds7 1 5) 1) ∧
    (({ instant := 0, member := ⟨0⟩, action_taken := false } : UserJoinMoment) ∈
        mapGet guilds7 1) :=
  ⟨by decide,
   (action_taken_monotonic guilds7 1 ⟨9⟩ 0 (fun _ => true) 5).2
     { instant := 0, member := ⟨0⟩, action_taken := false } (by decide)⟩

/-- C5 counterexample: at a triggering eighth join where every outbound kick
call fails, eight calls are issued yet every log line emitted by the handler
is `Info`-level — the failures are discarded silently, not logged as
warnings. -/
theorem failed_call_not_logged_as_warning :
    (guild_member_addition guilds7 1 ⟨100⟩ 0 (fun _ => false)).2.1.length = 8 ∧
    ((guild_member_addition guilds7 1 ⟨100⟩ 0 (fun _ => false)).2.2.all
      (fun e => e.level == Level.Info)) = true := by
  decide

/-- C5 (amended): the handler's resulting state, calls and log are
independent of the outcome of every kick/ban call (the call's result is
discarded without logging), and on a trigger every record in the resulting
window is marked `action_taken = true`, with exactly one call issued per
previously-pending record (no retries). -/
theorem action_marked_regardless_of_outcome (guilds : GuildsMap) (gid : GuildId)
    (mem : Member) (now : Nat) (o1 o2 : ActionCall → Bool) :
    guild_member_addition guilds gid mem now o1 =
      guild_member_addition guilds gid mem now o2 ∧
    (MIN_USERS_JOIN ≤ (windowAfterInsert guilds gid mem now).length →
      (∀ r ∈ mapGet (guild_member_addition guilds gid mem now o1).1 gid,
        r.action_taken = true) ∧
      (guild_member_addition guilds gid mem now o1).2.1.length =
        ((windowAfterInsert guilds gid mem now).filter (fun j => !j.action_taken)).length) := by
  constructor
  · simp only [guild_member_addition, actionPass_outcome_irrel o1 o2]
  · intro h
    constructor
    · intro r hr
      rw [addition_fst, mapGet_mapSet_same, if_pos h] at hr
      obtain ⟨s, _, rfl⟩ := List.mem_map.mp hr
      rfl
    · rw [addition_calls, if_pos h, List.length_map]

/-- C5 witness: on the triggering eighth join, the handler's full result is
the same whether every call fails or every call succeeds, and all eight
retained records are marked. -/
theorem action_marked_regardless_of_outcome_witness :
    guild_member_addition guilds7 1 ⟨100⟩ 0 (fun _ => false) =
      guild_member_addition guilds7 1 ⟨100⟩ 0 (fun _ => true) ∧
    (guild_member_addition guilds7 1 ⟨100⟩ 0 (fun _ => false)).2.1.length =
      ((windowAfterInsert guilds7 1 ⟨100⟩ 0).filter (fun j => !j.action_taken)).length :=
  ⟨(action_marked_regardless_of_outcome guilds7 1 ⟨100⟩ 0 (fun _ => false) (fun _ => true)).1,
   ((action_marked_regardless_of_outcome guilds7 1 ⟨100⟩ 0 (fun _ => false) (fun _ => true)).2
     (by decide)).2⟩

/-- C6: removal reconciliation is idempotent — when no pending record of the
removed user is in the window the records are unchanged, and running the
removal twice yields the same map as running it once. -/
theorem removal_idempotent (guilds : GuildsMap) (gid : GuildId) (kicked : UserId) :
    ((∀ r ∈ mapGet guilds gid, r.action_taken = true ∨ r.member.user ≠ kicked) →
      mapGet (guild_member_removal guilds gid kicked) gid = mapGet guilds gid) ∧
    guild_member_removal (guild_member_removal guilds gid kicked) gid kicked =
      guild_member_removal guilds gid kicked := by
  constructor
  · intro h
    unfold guild_member_removal
    rw [mapGet_mapSet_same]
    apply List.filter_eq_self.mpr
    intro r hr
    rcases h r hr with h' | h'
    · exact Bool.or_eq_true_iff.mpr (Or.inl h')
    · exact Bool.or_eq_true_iff.mpr (Or.inr (bne_iff_ne.mpr h'))
  · funext g'
    unfold guild_member_removal
    by_cases hg : g' = gid
    · subst hg
      simp [mapGet, mapSet, List.filter_filter]
    · simp only [mapSet, if_neg hg]

/-- C6 witness: removing a user with no pending record leaves the
seven-pending-join window unchanged, and a second removal of user 3 changes
nothing more. -/
theorem removal_idempotent_witness :
    mapGet (guild_member_removal guilds7 1 42) 1 = mapGet guilds7 1 ∧
    guild_member_removal (guild_member_removal guilds7 1 3) 1 3 =
      guild_member_removal guilds7 1 3 :=
  ⟨(removal_idempotent guilds7 1 42).1 (by decide),
   (removal_idempotent guilds7 1 3).2⟩

/-- C7: processing a join or removal event for one guild leaves every other
guild's map entry — records, count and trigger state — unchanged. -/
theorem per_guild_isolation (guilds : GuildsMap) (gidA gidB : GuildId)
    (mem : Member) (now : Nat) (o : ActionCall → Bool) (kicked : UserId)
    (h : gidB ≠ gidA) :
    (guild_member_addition guilds gidA mem now o).1 gidB = guilds gidB ∧
    guild_member_removal guilds gidA kicked gidB = guilds gidB := by
  constructor
  · rw [addition_fst]
    exact mapSet_apply_ne _ _ _ _ h
  · unfold guild_member_removal
    exact mapSet_apply_ne _ _ _ _ h

/-- C7 witness: a triggering join and a removal on guild 1 leave guild 2's
entry untouched. -/
theorem per_guild_isolation_witness :
    (guild_member_addition guilds7 1 ⟨100⟩ 0 (fun _ => true)).1 2 = guilds7 2 ∧
    guild_member_removal guilds7 1 3 2 = guilds7 2 :=
  per_guild_isolation guilds7 1 2 ⟨100⟩ 0 (fun _ => true) 3 (by decide)

/-- C9: the record appended by a join always survives that same call's
eviction pass (its age is zero), so the retained window and the logged live
count are at least 1. -/
theorem new_record_survives (guilds : GuildsMap) (gid : GuildId) (mem : Member)
    (now : Nat) (o : ActionCall → Bool) :
    ({ instant := now, member := mem, action_taken := false } : UserJoinMoment) ∈
        windowAfterInsert guilds gid mem now ∧
    1 ≤ (windowAfterInsert guilds gid mem now).length ∧
    1 ≤ (mapGet (guild_member_addition guilds gid mem now o).1 gid).length ∧
    (guild_member_addition guilds gid mem now o).2.2.head? =
      some (LogEvent.joinCount (windowAfterInsert guilds gid mem now).length) := by
  have hmem : ({ instant := now, member := mem, action_taken := false } : UserJoinMoment) ∈
      windowAfterInsert guilds gid mem now := by
    apply List.mem_filter.mpr
    refine ⟨List.mem_append.mpr (Or.inr (List.mem_singleton.mpr rfl)), ?_⟩
    simp
  have hlen : 1 ≤ (windowAfterInsert guilds gid mem now).length :=
    List.length_pos.mpr (List.ne_nil_of_mem hmem)
  refine ⟨hmem, hlen, ?_, ?_⟩
  · rw [addition_fst, mapGet_mapSet_same]
    split
    · rw [List.length_map]
      exact hlen
    · exact hlen
  · simp only [guild_member_addition]
    split <;> rfl

/-- C10: a removal event for a guild with no map entry creates the entry as
an empty window, removes nothing, and leaves every other guild's entry
unchanged. -/
theorem removal_fresh_guild (guilds : GuildsMap) (gid : GuildId) (kicked : UserId)
    (h : guilds gid = none) :
    guild_member_removal guilds gid kicked gid = some [] ∧
    ∀ g', g' ≠ gid → guild_member_removal guilds gid kicked g' = guilds g' := by
  constructor
  · unfold guild_member_removal
    simp [mapGet, mapSet, h]
  · intro g' hg'
    unfold guild_member_removal
    exact mapSet_apply_ne _ _ _ _ hg'

/-- C10 witness: a removal aimed at never-joined guild 2 creates `some []`
for guild 2 and leaves guild 7's (absent) entry as it was. -/
theorem removal_fresh_guild_witness :
    guild_member_removal emptyGuilds 2 3 2 = some [] ∧
    guild_member_removal emptyGuilds 2 3 7 = emptyGuilds 7 :=
  ⟨(removal_fresh_guild emptyGuilds 2 3 rfl).1,
   (removal_fresh_guild emptyGuilds 2 3 rfl).2 7 (by decide)⟩

end BotDestroyer
